import Mathlib

/-!
# Verification of the elastic-zeroentropy result-fusion pipeline

A shallow embedding of the reranker orchestration code
(`src/elastic_zeroentropy/reranker.py`, `models.py`, `exceptions.py`) in Lean 4,
together with proofs of the specified properties of the pipeline.

Modelling conventions:
* Python floats are modelled as exact rationals (`ℚ`).
* Python dicts keyed by strings are modelled as association lists with
  overwrite-on-insert semantics (`dictInsert`, `dictGet`, `dictValues`).
* Pydantic model construction with validators is modelled as a function
  returning `Option` (`none` = a validation error was raised).
* The two remote collaborators (Elasticsearch, ZeroEntropy) are modelled as
  oracles of type `Except String _`: what the single call of this run would
  return, or the exception it would raise.  The pipeline functions also
  return how many times each collaborator was called.
* Wall-clock timing fields (`took_ms`, ...) are not modelled (real time).
-/

namespace ElasticZeroEntropy

/-- A document (`models.Document`).  `metadata_es_score` models
`metadata["elasticsearch_score"]`: `none` = key absent, `some none` = key
present with value `None`, `some (some q)` = key present with float value. -/
structure Document where
  id : String
  title : Option String
  text : String
  metadata_es_score : Option (Option ℚ)
  deriving Repr, DecidableEq

/-- `doc.metadata.get("elasticsearch_score", 0.0)`. -/
def Document.esScoreRaw (d : Document) : Option ℚ :=
  d.metadata_es_score.getD (some 0)

/-- `es_score if es_score is not None else 0.0`. -/
def Document.esScoreVal (d : Document) : ℚ :=
  d.esScoreRaw.getD 0

/-- A search result row (`models.SearchResult`); fields after its validators
have accepted them. -/
structure SearchResult where
  document : Document
  score : ℚ
  rank : ℤ
  elasticsearch_score : Option ℚ
  rerank_score : Option ℚ
  deriving Repr, DecidableEq

/-- Constructing a `SearchResult`: the pydantic validators reject a negative
`score` and a rank below 1 (`models.SearchResult.score_must_be_non_negative`,
`rank_must_be_positive`). -/
def mkSearchResult (document : Document) (score : ℚ) (rank : ℤ)
    (elasticsearch_score : Option ℚ) (rerank_score : Option ℚ) :
    Option SearchResult :=
  if score < 0 then none
  else if rank < 1 then none
  else some ⟨document, score, rank, elasticsearch_score, rerank_score⟩

/-- One entry of a ZeroEntropy rerank response (`models.RerankResult`). -/
structure RerankResult where
  index : ℤ
  relevance_score : ℚ
  document : String
  deriving Repr, DecidableEq

/-- A ZeroEntropy rerank response (`models.RerankResponse`); usage and
request id are irrelevant to the pipeline and omitted. -/
structure RerankResponse where
  results : List RerankResult
  model : String
  deriving Repr, DecidableEq

/-- An Elasticsearch response (`models.ElasticsearchResponse`); the raw
response payload is opaque to the pipeline and omitted. -/
structure ElasticsearchResponse where
  took : ℕ
  timed_out : Bool
  total_hits : ℕ
  max_score : Option ℚ
  documents : List Document
  deriving Repr, DecidableEq

/-- The reranker configuration (`models.RerankerConfig`) after validation. -/
structure RerankerConfig where
  top_k_initial : ℕ
  top_k_rerank : ℕ
  top_k_final : ℕ
  model : String
  combine_scores : Bool
  score_weights : List (String × ℚ)
  deriving Repr, DecidableEq

/-- Sum of the values of a weights dict (`sum(v.values())`). -/
def weightsSum (w : List (String × ℚ)) : ℚ :=
  (w.map Prod.snd).sum

/-- Constructing a `RerankerConfig`: pydantic field bounds
(`ge`/`le` on the three sizes) and the custom validators
`top_k_rerank_must_not_exceed_initial`, `top_k_final_must_not_exceed_rerank`
and `score_weights_must_sum_to_one` (`abs(total - 1.0) > 0.01` rejects).
Construction succeeds iff every validator accepts. -/
def mkRerankerConfig (top_k_initial top_k_rerank top_k_final : ℤ)
    (model : String) (combine_scores : Bool)
    (score_weights : List (String × ℚ)) : Option RerankerConfig :=
  if 1 ≤ top_k_initial ∧ top_k_initial ≤ 10000 then
    if 1 ≤ top_k_rerank ∧ top_k_rerank ≤ 1000 ∧ top_k_rerank ≤ top_k_initial then
      if 1 ≤ top_k_final ∧ top_k_final ≤ 100 ∧ top_k_final ≤ top_k_rerank then
        if |weightsSum score_weights - 1| ≤ 1/100 then
          some ⟨top_k_initial.toNat, top_k_rerank.toNat, top_k_final.toNat,
                model, combine_scores, score_weights⟩
        else none
      else none
    else none
  else none

/-- The typed exceptions that can escape `ElasticZeroEntropyReranker.search`
(`exceptions.ValidationError` and `exceptions.RerankingError`; every other
exception is wrapped, see `searchCore`). -/
inductive PipelineError where
  | validationError (message : String) (field : String)
  | rerankingError (message : String) (query : String)
      (document_count : Option ℕ) (stage : String)
  deriving Repr, DecidableEq

/-- The kind (Python class) of an escaped exception. -/
inductive ErrorKind where
  | validation
  | reranking
  deriving Repr, DecidableEq

/-- Which exception class a `PipelineError` is an instance of. -/
def PipelineError.kind : PipelineError → ErrorKind
  | .validationError _ _ => .validation
  | .rerankingError _ _ _ _ => .reranking

/-- The `stage` detail of an error (empty when absent). -/
def PipelineError.stage : PipelineError → String
  | .validationError _ _ => ""
  | .rerankingError _ _ _ s => s

/-- A search response (`models.SearchResponse`) without the timing fields. -/
structure SearchResponse where
  query : String
  results : List SearchResult
  total_hits : ℕ
  model_used : String
  reranking_enabled : Bool
  deriving Repr, DecidableEq

/-- Python's `str.strip()` with no argument: remove whitespace from both
ends of the string. -/
def pyStrip (s : String) : String :=
  ⟨((s.data.dropWhile Char.isWhitespace).reverse.dropWhile
      Char.isWhitespace).reverse⟩

/-! ## Python dict operations (string-keyed) -/

/-- `d[k] = v` on a Python dict: overwrite in place if the key is present,
append otherwise. -/
def dictInsert (d : List (String × ℚ)) (k : String) (v : ℚ) :
    List (String × ℚ) :=
  if d.any (fun p => p.1 = k) then
    d.map (fun p => if p.1 = k then (k, v) else p)
  else d ++ [(k, v)]

/-- `d.get(k, dflt)` on a Python dict. -/
def dictGet (d : List (String × ℚ)) (k : String) (dflt : ℚ) : ℚ :=
  match d.find? (fun p => p.1 = k) with
  | some p => p.2
  | none => dflt

/-- `d.values()` on a Python dict. -/
def dictValues (d : List (String × ℚ)) : List ℚ :=
  d.map Prod.snd

/-! ## The pipeline (`reranker.ElasticZeroEntropyReranker`) -/

/-- `_normalize_score`: min-max normalization of `score` against
`all_scores`; `0.0` on an empty comparison set, `1.0` when `max == min`. -/
def normalize_score (score : ℚ) (all_scores : List ℚ) : ℚ :=
  match all_scores with
  | [] => 0
  | x :: xs =>
    let min_score := xs.foldl min x
    let max_score := xs.foldl max x
    if max_score = min_score then 1
    else (score - min_score) / (max_score - min_score)

/-- Whether a scorer result's back-reference index is inside
`[0, len(documents))` (`_rerank_documents`, defensive bound check). -/
def indexInRange (documents : List Document) (r : RerankResult) : Prop :=
  0 ≤ r.index ∧ r.index < (documents.length : ℤ)

instance (documents : List Document) (r : RerankResult) :
    Decidable (indexInRange documents r) := by
  unfold indexInRange; infer_instance

/-- The `(document, score)` pairs recovered from a scorer response
(`_rerank_documents`, lines 308-313): each result whose index passes the
bound check is mapped back to the document at that index, every other
result is dropped. -/
def rerankPairs (documents : List Document) (results : List RerankResult) :
    List (Document × ℚ) :=
  results.filterMap (fun r =>
    if indexInRange documents r then
      (documents.get? r.index.toNat).map (fun d => (d, r.relevance_score))
    else none)

/-- `reranked_docs.sort(key=lambda x: x[1], reverse=True)`: a stable sort,
descending by score (ties keep the order received from the scorer). -/
def sortByScoreDesc (l : List (Document × ℚ)) : List (Document × ℚ) :=
  l.insertionSort (fun a b => b.2 ≤ a.2)

/-- The pure part of `_rerank_documents` once the scorer has answered:
recover the pairs, then sort by rerank score, highest first. -/
def rerankedDocs (documents : List Document) (results : List RerankResult) :
    List (Document × ℚ) :=
  sortByScoreDesc (rerankPairs documents results)

/-- The `es_scores` dict of `_combine_results` (lines 346-349): document id
→ native score (`metadata.get("elasticsearch_score", 0.0)`, `None` → `0.0`). -/
def esScoresDict (original_docs : List Document) : List (String × ℚ) :=
  original_docs.foldl (fun d doc => dictInsert d doc.id doc.esScoreVal) []

/-- The combined score of one candidate in `_combine_results`: weighted
blend of the min-max-normalized native score and the (already normalized)
rerank score when `combine_scores`, the raw rerank score otherwise. -/
def combinedScore (config : RerankerConfig) (es_scores : List (String × ℚ))
    (es_score rerank_score : ℚ) : ℚ :=
  if config.combine_scores then
    dictGet config.score_weights "elasticsearch" (3/10)
        * normalize_score es_score (dictValues es_scores)
      + dictGet config.score_weights "rerank" (7/10) * rerank_score
  else rerank_score

/-- The result-construction loop of `_combine_results`
(`for rank, (doc, rerank_score) in enumerate(reranked_docs, 1)`); `none`
when some `SearchResult` fails validation. -/
def combineLoop (config : RerankerConfig) (es_scores : List (String × ℚ)) :
    ℕ → List (Document × ℚ) → Option (List SearchResult)
  | _, [] => some []
  | rank, (doc, rerank_score) :: rest =>
    let es_score := dictGet es_scores doc.id 0
    match mkSearchResult doc (combinedScore config es_scores es_score rerank_score)
        (rank : ℤ) (some es_score) (some rerank_score) with
    | none => none
    | some r =>
      match combineLoop config es_scores (rank + 1) rest with
      | none => none
      | some rs => some (r :: rs)

/-- `_combine_results`. -/
def combine_results (original_docs : List Document)
    (reranked_docs : List (Document × ℚ)) (config : RerankerConfig) :
    Option (List SearchResult) :=
  combineLoop config (esScoresDict original_docs) 1 reranked_docs

/-- The loop of `_convert_to_search_results`
(`for rank, doc in enumerate(documents[:limit], 1)`). -/
def convertLoop : ℕ → List Document → Option (List SearchResult)
  | _, [] => some []
  | rank, doc :: rest =>
    let es_score := doc.esScoreRaw
    match mkSearchResult doc (es_score.getD 0) (rank : ℤ) es_score none with
    | none => none
    | some r =>
      match convertLoop (rank + 1) rest with
      | none => none
      | some rs => some (r :: rs)

/-- `_convert_to_search_results`: documents become results without rerank
scores; note the truncation to `limit` happens here already. -/
def convert_to_search_results (documents : List Document) (limit : ℕ) :
    Option (List SearchResult) :=
  convertLoop 1 (documents.take limit)

deriving instance DecidableEq for Except

/-- What one run of `search` produced: the outcome plus how many times each
external collaborator was called. -/
structure SearchOutcome (α : Type) where
  response : Except PipelineError α
  esCalls : ℕ
  scorerCalls : ℕ
  deriving Repr, DecidableEq

/-- The error produced by the catch-all `except` of `search`
(lines 223-228): anything that is not already a `ValidationError` or a
`RerankingError` is wrapped into a `RerankingError` tagged `stage="search"`. -/
def wrapUnexpected (message : String) (query : String) : PipelineError :=
  .rerankingError ("Search failed: " ++ message) query none "search"

/-- `ElasticZeroEntropyReranker.search` up to (but not including) the final
`final_results[:top_k_final]` truncation of line 201: validation, the
Elasticsearch call, the rerank decision, the scorer call and the combine
step.  On success it returns the pre-truncation result list, the
Elasticsearch response and the effective `enable_reranking` flag. -/
def searchCore (query index : String) (config : RerankerConfig)
    (enable_reranking : Bool)
    (es : Except String ElasticsearchResponse)
    (scorer : Except String RerankResponse) :
    SearchOutcome (List SearchResult × ElasticsearchResponse × Bool) :=
  if pyStrip query = "" then
    ⟨.error (.validationError "Query cannot be empty" "query"), 0, 0⟩
  else if pyStrip index = "" then
    ⟨.error (.validationError "Index cannot be empty" "index"), 0, 0⟩
  else
    match es with
    | .error e => ⟨.error (wrapUnexpected e query), 1, 0⟩
    | .ok es_response =>
      if enable_reranking && decide (es_response.documents.length > 1) then
        let docs_to_rerank := es_response.documents.take config.top_k_rerank
        if docs_to_rerank.isEmpty then
          -- `_rerank_documents` returns [] before any API call
          match combine_results es_response.documents [] config with
          | none => ⟨.error (wrapUnexpected "result validation" query), 1, 0⟩
          | some rs => ⟨.ok (rs, es_response, true), 1, 0⟩
        else
          match scorer with
          | .error e =>
            ⟨.error (.rerankingError ("Reranking failed: " ++ e) query
                (some docs_to_rerank.length) "reranking"), 1, 1⟩
          | .ok rerank_response =>
            match combine_results es_response.documents
                (rerankedDocs docs_to_rerank rerank_response.results) config with
            | none => ⟨.error (wrapUnexpected "result validation" query), 1, 1⟩
            | some rs => ⟨.ok (rs, es_response, true), 1, 1⟩
      else
        match convert_to_search_results es_response.documents config.top_k_final with
        | none => ⟨.error (wrapUnexpected "result validation" query), 1, 0⟩
        | some rs => ⟨.ok (rs, es_response, false), 1, 0⟩

/-- `ElasticZeroEntropyReranker.search`: `searchCore`, then the final
truncation `final_results[:reranker_config.top_k_final]` and the response
assembly. -/
def search (query index : String) (config : RerankerConfig)
    (enable_reranking : Bool)
    (es : Except String ElasticsearchResponse)
    (scorer : Except String RerankResponse) :
    SearchOutcome SearchResponse :=
  match searchCore query index config enable_reranking es scorer with
  | ⟨.error e, a, b⟩ => ⟨.error e, a, b⟩
  | ⟨.ok (rs, es_response, reranked), a, b⟩ =>
    ⟨.ok { query := query
           results := rs.take config.top_k_final
           total_hits := es_response.total_hits
           model_used := config.model
           reranking_enabled := reranked }, a, b⟩

/-! ## The batch coordinator (`search_batch`, lines 418-448)

`search_batch` creates one task per request, guards each task's `search`
call with `asyncio.Semaphore(max_concurrent)` and collects the responses
with `asyncio.gather(*tasks)`, which returns them in task (= input) order.
The cooperative execution is modelled as a transition system: a task index
is `waiting` (queued on the semaphore, FIFO), `running` (holding a permit,
its `search` call in flight) or `done` (its result recorded).  Which running
task finishes first is nondeterministic — the schedule picks any running
task — so every theorem below holds regardless of completion order. -/

/-- A high-level search request (`models.SearchRequest`); the custom query
and the filters only shape the Elasticsearch call and are left to the
retrieval oracle. -/
structure SearchRequest where
  query : String
  index : String
  reranker_config : Option RerankerConfig
  deriving Repr, DecidableEq

/-- The body of `search_single`: run `search` for one request, the default
configuration standing in for `request.reranker_config is None`. -/
def searchSingle (defaultConfig : RerankerConfig)
    (es : Except String ElasticsearchResponse)
    (scorer : Except String RerankResponse) (request : SearchRequest) :
    SearchOutcome SearchResponse :=
  search request.query request.index
    (request.reranker_config.getD defaultConfig) true es scorer

/-- A state of the batch execution. -/
structure BatchState (α : Type) where
  waiting : List ℕ
  running : List ℕ
  done : List (ℕ × α)
  deriving Repr

/-- The initial state: `gather` schedules all `n` tasks; the first
`maxConcurrent` acquire the semaphore at once, the rest queue in order. -/
def batchInit (α : Type) (n maxConcurrent : ℕ) : BatchState α :=
  ⟨(List.range n).drop maxConcurrent, (List.range n).take maxConcurrent, []⟩

/-- One scheduling step: some running task `j` finishes its `search` call
(outcome `f j`), its response is recorded for slot `j`, its permit is
released and the head of the FIFO queue (if any) is admitted. -/
inductive BatchStep (f : ℕ → α) : BatchState α → BatchState α → Prop where
  | complete (w r : List ℕ) (d : List (ℕ × α)) (j : ℕ) (hj : j ∈ r) :
      BatchStep f ⟨w, r, d⟩ ⟨w.drop 1, r.erase j ++ w.take 1, d ++ [(j, f j)]⟩

/-- Zero or more scheduling steps. -/
def BatchReach (f : ℕ → α) : BatchState α → BatchState α → Prop :=
  Relation.ReflTransGen (BatchStep f)

/-- A state with no queued and no in-flight task: the `gather` call
returns. -/
def BatchFinal (s : BatchState α) : Prop :=
  s.waiting = [] ∧ s.running = []

/-- How `asyncio.gather` hands the results back: one response per task,
slot `i` of the output holding task `i`'s recorded response — input order,
not completion order. -/
def batchGather (n : ℕ) (done : List (ℕ × α)) : List α :=
  (List.range n).filterMap (fun i => List.lookup i done)

/-! ## Helper lemmas -/

theorem mkSearchResult_some {d : Document} {s : ℚ} {r : ℤ} {eso rro : Option ℚ}
    {x : SearchResult} (h : mkSearchResult d s r eso rro = some x) :
    x = ⟨d, s, r, eso, rro⟩ ∧ 0 ≤ s ∧ 1 ≤ r := by
  unfold mkSearchResult at h
  split_ifs at h with h1 h2
  exact ⟨(Option.some.inj h).symm, not_lt.mp h1, by omega⟩

theorem mkSearchResult_neg {d : Document} {s : ℚ} {r : ℤ} {eso rro : Option ℚ}
    (h : s < 0 ∨ r < 1) : mkSearchResult d s r eso rro = none := by
  unfold mkSearchResult
  rcases h with h | h
  · simp [h]
  · split_ifs with h1 <;> simp [h]

theorem combineLoop_some (cfg : RerankerConfig) (es : List (String × ℚ)) :
    ∀ (l : List (Document × ℚ)) (n : ℕ) (rs : List SearchResult),
      combineLoop cfg es n l = some rs →
      rs.length = l.length ∧
      ∀ (k : ℕ) (hk : k < rs.length) (hk' : k < l.length),
        rs.get ⟨k, hk⟩ =
          { document := (l.get ⟨k, hk'⟩).1
            score := combinedScore cfg es
              (dictGet es (l.get ⟨k, hk'⟩).1.id 0) (l.get ⟨k, hk'⟩).2
            rank := ((n + k : ℕ) : ℤ)
            elasticsearch_score := some (dictGet es (l.get ⟨k, hk'⟩).1.id 0)
            rerank_score := some (l.get ⟨k, hk'⟩).2 } ∧
        0 ≤ (rs.get ⟨k, hk⟩).score := by
  intro l
  induction l with
  | nil =>
    intro n rs h
    simp only [combineLoop, Option.some.injEq] at h
    subst h
    exact ⟨rfl, fun k hk => absurd hk (by simp)⟩
  | cons p rest ih =>
    obtain ⟨doc, rsc⟩ := p
    intro n rs h
    simp only [combineLoop] at h
    cases hmk : mkSearchResult doc
        (combinedScore cfg es (dictGet es doc.id 0) rsc) (n : ℤ)
        (some (dictGet es doc.id 0)) (some rsc) with
    | none => rw [hmk] at h; cases h
    | some r =>
      rw [hmk] at h
      cases hrec : combineLoop cfg es (n + 1) rest with
      | none => rw [hrec] at h; cases h
      | some rs' =>
        rw [hrec] at h
        simp only [Option.some.injEq] at h
        subst h
        obtain ⟨hlen, hget⟩ := ih (n + 1) rs' hrec
        obtain ⟨hr, hs, _⟩ := mkSearchResult_some hmk
        refine ⟨by simp [hlen], ?_⟩
        intro k hk hk'
        cases k with
        | zero =>
          subst hr
          exact ⟨by simp, hs⟩
        | succ k =>
          have hk1 : k < rs'.length := by simpa using hk
          have hk2 : k < rest.length := by simpa using hk'
          obtain ⟨hg, hgs⟩ := hget k hk1 hk2
          constructor
          · show rs'.get ⟨k, hk1⟩ = _
            rw [hg]
            congr 1
            omega
          · exact hgs

theorem convertLoop_some :
    ∀ (l : List Document) (n : ℕ) (rs : List SearchResult),
      convertLoop n l = some rs →
      rs.length = l.length ∧
      ∀ (k : ℕ) (hk : k < rs.length) (hk' : k < l.length),
        rs.get ⟨k, hk⟩ =
          { document := l.get ⟨k, hk'⟩
            score := (l.get ⟨k, hk'⟩).esScoreVal
            rank := ((n + k : ℕ) : ℤ)
            elasticsearch_score := (l.get ⟨k, hk'⟩).esScoreRaw
            rerank_score := none } ∧
        0 ≤ (rs.get ⟨k, hk⟩).score := by
  intro l
  induction l with
  | nil =>
    intro n rs h
    simp only [convertLoop, Option.some.injEq] at h
    subst h
    exact ⟨rfl, fun k hk => absurd hk (by simp)⟩
  | cons doc rest ih =>
    intro n rs h
    simp only [convertLoop] at h
    cases hmk : mkSearchResult doc (doc.esScoreRaw.getD 0) (n : ℤ)
        doc.esScoreRaw none with
    | none => rw [hmk] at h; cases h
    | some r =>
      rw [hmk] at h
      cases hrec : convertLoop (n + 1) rest with
      | none => rw [hrec] at h; cases h
      | some rs' =>
        rw [hrec] at h
        simp only [Option.some.injEq] at h
        subst h
        obtain ⟨hlen, hget⟩ := ih (n + 1) rs' hrec
        obtain ⟨hr, hs, _⟩ := mkSearchResult_some hmk
        refine ⟨by simp [hlen], ?_⟩
        intro k hk hk'
        cases k with
        | zero =>
          subst hr
          exact ⟨by simp [Document.esScoreVal], hs⟩
        | succ k =>
          have hk1 : k < rs'.length := by simpa using hk
          have hk2 : k < rest.length := by simpa using hk'
          obtain ⟨hg, hgs⟩ := hget k hk1 hk2
          constructor
          · show rs'.get ⟨k, hk1⟩ = _
            rw [hg]
            congr 1
            omega
          · exact hgs

/-! ## C3: configuration construction invariants -/

/-- C3: Constructing a reranker configuration fails whenever `top_k_rerank`
exceeds `top_k_initial`, or `top_k_final` exceeds `top_k_rerank`, or the
score weights sum to a value outside `[0.99, 1.01]`, or any size field is
below 1; and every configuration that constructs successfully satisfies
`top_k_final ≤ top_k_rerank ≤ top_k_initial` with its weights sum within
`±0.01` of `1.0`. -/
theorem rerankerConfig_construction_invariants :
    (∀ (tki tkr tkf : ℤ) (m : String) (cs : Bool) (w : List (String × ℚ)),
      (tki < tkr ∨ tkr < tkf ∨
        weightsSum w < 99/100 ∨ 101/100 < weightsSum w ∨
        tki < 1 ∨ tkr < 1 ∨ tkf < 1) →
      mkRerankerConfig tki tkr tkf m cs w = none) ∧
    (∀ (tki tkr tkf : ℤ) (m : String) (cs : Bool) (w : List (String × ℚ))
        (cfg : RerankerConfig),
      mkRerankerConfig tki tkr tkf m cs w = some cfg →
      cfg.top_k_final ≤ cfg.top_k_rerank ∧
      cfg.top_k_rerank ≤ cfg.top_k_initial ∧
      |weightsSum cfg.score_weights - 1| ≤ 1/100) := by
  constructor
  · intro tki tkr tkf m cs w h
    unfold mkRerankerConfig
    split_ifs with h1 h2 h3 h4
    · exfalso
      have habs := abs_le.mp h4
      rcases h with h | h | h | h | h | h | h <;> first
        | omega
        | linarith [habs.1, habs.2]
    all_goals rfl
  · intro tki tkr tkf m cs w cfg h
    unfold mkRerankerConfig at h
    split_ifs at h with h1 h2 h3 h4
    cases Option.some.inj h
    exact ⟨Int.toNat_le_toNat h3.2.2, Int.toNat_le_toNat h2.2.2, h4⟩

/-- Witness for C3: a config with `top_k_rerank > top_k_initial` is
rejected, and a valid config satisfies the size chain and the weight-sum
bound. -/
theorem rerankerConfig_construction_invariants_witness :
    mkRerankerConfig 5 10 3 "zerank-1" true
        [("elasticsearch", 3/10), ("rerank", 7/10)] = none ∧
    ((3 : ℕ) ≤ 10 ∧ (10 : ℕ) ≤ 100 ∧
      |weightsSum [("elasticsearch", (3 : ℚ)/10), ("rerank", 7/10)] - 1|
        ≤ 1/100) :=
  ⟨rerankerConfig_construction_invariants.1 5 10 3 "zerank-1" true
      [("elasticsearch", 3/10), ("rerank", 7/10)]
      (Or.inl (by norm_num)),
    rerankerConfig_construction_invariants.2 100 10 3 "zerank-1" true
      [("elasticsearch", 3/10), ("rerank", 7/10)]
      ⟨100, 10, 3, "zerank-1", true, [("elasticsearch", 3/10), ("rerank", 7/10)]⟩
      (by with_unfolding_all decide)⟩

/-! ## C7: validation happens before any collaborator call -/

/-- C7: whenever the query or the index is empty after trimming, `search`
raises a `ValidationError` and neither collaborator is called (both call
counts are zero). -/
theorem emptyInput_validationError_noCalls
    (query index : String) (config : RerankerConfig) (er : Bool)
    (es : Except String ElasticsearchResponse)
    (scorer : Except String RerankResponse)
    (h : pyStrip query = "" ∨ pyStrip index = "") :
    ∃ e : PipelineError,
      search query index config er es scorer = ⟨.error e, 0, 0⟩ ∧
      e.kind = .validation := by
  by_cases hq : pyStrip query = ""
  · exact ⟨.validationError "Query cannot be empty" "query",
      by simp [search, searchCore, hq], rfl⟩
  · have hi : pyStrip index = "" := h.resolve_left hq
    exact ⟨.validationError "Index cannot be empty" "index",
      by simp [search, searchCore, hq, hi], rfl⟩

/-- Witness for C7: the empty query. -/
theorem emptyInput_validationError_noCalls_witness :
    ∃ e : PipelineError,
      search "" "documents" ⟨100, 20, 10, "zerank-1", true, []⟩ true
          (.ok ⟨1, false, 0, none, []⟩) (.ok ⟨[], "zerank-1"⟩) =
        ⟨.error e, 0, 0⟩ ∧
      e.kind = .validation :=
  emptyInput_validationError_noCalls "" "documents"
    ⟨100, 20, 10, "zerank-1", true, []⟩ true
    (.ok ⟨1, false, 0, none, []⟩) (.ok ⟨[], "zerank-1"⟩)
    (Or.inl (by decide))

/-! ## C8: out-of-range scorer indices are dropped, in-range mapped back -/

/-- C8: in the rerank step every scorer result whose index lies outside
`[0, submittedCount)` is silently dropped (removing them from the response
does not change the outcome), and every in-range result is mapped back to
the document at its index; the recovered pairs contain nothing else. -/
theorem scorer_index_bound_check
    (documents : List Document) (results : List RerankResult) :
    rerankPairs documents results =
      rerankPairs documents
        (results.filter (fun r => decide (indexInRange documents r))) ∧
    (∀ r ∈ results, indexInRange documents r →
      ∃ d, documents.get? r.index.toNat = some d ∧
        (d, r.relevance_score) ∈ rerankPairs documents results) ∧
    (∀ p ∈ rerankPairs documents results,
      ∃ r, r ∈ results ∧ indexInRange documents r ∧
        documents.get? r.index.toNat = some p.1 ∧
        p.2 = r.relevance_score) := by
  refine ⟨?_, ?_, ?_⟩
  · induction results with
    | nil => rfl
    | cons r rest ih =>
      by_cases hr : indexInRange documents r
      · cases hfa : documents[r.index.toNat]? with
        | none =>
          simp [rerankPairs, List.filter_cons, List.filterMap_cons, hr, hfa]
            at ih ⊢
          exact ih
        | some d =>
          simp [rerankPairs, List.filter_cons, List.filterMap_cons, hr, hfa]
            at ih ⊢
          exact ih
      · simp [rerankPairs, List.filter_cons, List.filterMap_cons, hr]
          at ih ⊢
        exact ih
  · intro r hr hrange
    have hlt : r.index.toNat < documents.length := by
      have h1 := hrange.1
      have h2 := hrange.2
      omega
    have hd : documents.get? r.index.toNat =
        some (documents.get ⟨r.index.toNat, hlt⟩) := List.get?_eq_get hlt
    refine ⟨documents.get ⟨r.index.toNat, hlt⟩, hd, ?_⟩
    simp only [rerankPairs, List.mem_filterMap]
    refine ⟨r, hr, ?_⟩
    rw [if_pos hrange, hd]
    rfl
  · intro p hp
    simp only [rerankPairs, List.mem_filterMap] at hp
    obtain ⟨r, hr, hmap⟩ := hp
    by_cases hrange : indexInRange documents r
    · rw [if_pos hrange] at hmap
      rw [Option.map_eq_some'] at hmap
      obtain ⟨d, hd, hpd⟩ := hmap
      subst hpd
      exact ⟨r, hr, hrange, hd, rfl⟩
    · rw [if_neg hrange] at hmap
      cases hmap

/-- Every result list a successful `searchCore` run produces assigns rank
`1 + position` and non-negative scores (both branches build results with
`enumerate(..., 1)` and validated construction). -/
theorem searchCore_ok_results
    {q i : String} {cfg : RerankerConfig} {er : Bool}
    {es : Except String ElasticsearchResponse}
    {sc : Except String RerankResponse}
    {rs : List SearchResult} {esr : ElasticsearchResponse} {flag : Bool}
    {a b : ℕ}
    (h : searchCore q i cfg er es sc = ⟨.ok (rs, esr, flag), a, b⟩) :
    ∀ (k : ℕ) (hk : k < rs.length),
      (rs.get ⟨k, hk⟩).rank = ((1 + k : ℕ) : ℤ) ∧
      0 ≤ (rs.get ⟨k, hk⟩).score := by
  by_cases hq : pyStrip q = ""
  · simp [searchCore, hq] at h
  by_cases hi : pyStrip i = ""
  · simp [searchCore, hq, hi] at h
  cases es with
  | error e => simp [searchCore, hq, hi] at h
  | ok esr' =>
    by_cases hen : (er && decide (esr'.documents.length > 1)) = true
    · by_cases hemp : (esr'.documents.take cfg.top_k_rerank).isEmpty = true
      · cases hcr : combine_results esr'.documents [] cfg with
        | none => simp [searchCore, hq, hi, hen, hemp, hcr] at h
        | some rs' =>
          simp only [searchCore, hq, hi, hen, hemp, hcr, if_false, if_true,
            ite_false, ite_true] at h
          rw [SearchOutcome.mk.injEq, Except.ok.injEq, Prod.mk.injEq,
            Prod.mk.injEq] at h
          obtain ⟨⟨hrs, -, -⟩, -, -⟩ := h
          subst hrs
          unfold combine_results at hcr
          obtain ⟨hlen, hget⟩ := combineLoop_some cfg _ _ _ _ hcr
          intro k hk
          have hk' : k < ([] : List (Document × ℚ)).length := hlen ▸ hk
          obtain ⟨hg, hgs⟩ := hget k hk hk'
          exact ⟨by rw [hg], hgs⟩
      · cases sc with
        | error e =>
          simp [searchCore, hq, hi, hen, hemp] at h
        | ok rresp =>
          cases hcr : combine_results esr'.documents
              (rerankedDocs (esr'.documents.take cfg.top_k_rerank)
                rresp.results) cfg with
          | none => simp [searchCore, hq, hi, hen, hemp, hcr] at h
          | some rs' =>
            simp [searchCore, hq, hi, hen, hemp, hcr,
              SearchOutcome.mk.injEq] at h
            obtain ⟨⟨hrs, -, -⟩, -, -⟩ := h
            subst hrs
            unfold combine_results at hcr
            obtain ⟨hlen, hget⟩ := combineLoop_some cfg _ _ _ _ hcr
            intro k hk
            have hk' := hlen ▸ hk
            obtain ⟨hg, hgs⟩ := hget k hk hk'
            exact ⟨by rw [hg], hgs⟩
    · cases hcv : convert_to_search_results esr'.documents cfg.top_k_final with
      | none => simp [searchCore, hq, hi, hen, hcv] at h
      | some rs' =>
        simp only [searchCore, hq, hi, hen, hcv, if_false, if_true,
          ite_false, ite_true, Bool.false_eq_true] at h
        rw [SearchOutcome.mk.injEq, Except.ok.injEq, Prod.mk.injEq,
          Prod.mk.injEq] at h
        obtain ⟨⟨hrs, -, -⟩, -, -⟩ := h
        subst hrs
        unfold convert_to_search_results at hcv
        obtain ⟨hlen, hget⟩ := convertLoop_some _ _ _ hcv
        intro k hk
        have hk' := hlen ▸ hk
        obtain ⟨hg, hgs⟩ := hget k hk hk'
        exact ⟨by rw [hg], hgs⟩

/-! ## C9: dense 1-based ranks, non-negative scores -/

/-- C9: in every result list returned by a successful run the rank of the
`k`-th entry is `k+1` (dense, 1-based, unique), every returned score is
non-negative, and `SearchResult` construction rejects any negative score or
non-positive rank. -/
theorem dense_ranks_nonneg_scores
    (query index : String) (config : RerankerConfig) (er : Bool)
    (es : Except String ElasticsearchResponse)
    (scorer : Except String RerankResponse)
    (resp : SearchResponse) (a b : ℕ)
    (h : search query index config er es scorer = ⟨.ok resp, a, b⟩) :
    (∀ (k : ℕ) (hk : k < resp.results.length),
        (resp.results.get ⟨k, hk⟩).rank = ((k + 1 : ℕ) : ℤ)) ∧
    (∀ r ∈ resp.results, 0 ≤ r.score) ∧
    (∀ (d : Document) (s : ℚ) (rk : ℤ) (eso rro : Option ℚ),
        s < 0 ∨ rk < 1 → mkSearchResult d s rk eso rro = none) := by
  unfold search at h
  cases hc : searchCore query index config er es scorer with
  | mk response esCalls scorerCalls =>
    rw [hc] at h
    cases response with
    | error e => simp at h
    | ok t =>
      obtain ⟨rs, esr, flag⟩ := t
      simp only [SearchOutcome.mk.injEq, Except.ok.injEq] at h
      obtain ⟨hresp, -, -⟩ := h
      subst hresp
      have hprops := searchCore_ok_results hc
      refine ⟨?_, ?_, fun d s rk eso rro hneg => mkSearchResult_neg hneg⟩
      · intro k hk
        have hk2 : k < rs.length := by
          have := hk
          simp only [List.length_take, lt_min_iff] at this
          exact this.2
        have hget : (rs.take config.top_k_final).get ⟨k, hk⟩ =
            rs.get ⟨k, hk2⟩ := by
          simp [List.getElem_take]
        show ((rs.take config.top_k_final).get ⟨k, hk⟩).rank = _
        rw [hget, (hprops k hk2).1]
        congr 1
        omega
      · intro r hr
        have hr2 : r ∈ rs := List.take_subset _ _ hr
        obtain ⟨idx, hidx⟩ := List.mem_iff_get.mp hr2
        have := (hprops idx.1 idx.2).2
        rwa [hidx] at this

/-- Witness for C9: a concrete successful run (two documents, reranking
disabled) has ranks `1, 2` and non-negative scores. -/
theorem dense_ranks_nonneg_scores_witness :
    (∀ (k : ℕ)
      (hk : k < (SearchResponse.mk "q" [⟨⟨"a", none, "ta", some (some 2)⟩, 2, 1,
          some 2, none⟩, ⟨⟨"b", none, "tb", some (some 1)⟩, 1, 2, some 1, none⟩]
          2 "m" false).results.length),
      (((SearchResponse.mk "q" [⟨⟨"a", none, "ta", some (some 2)⟩, 2, 1,
          some 2, none⟩, ⟨⟨"b", none, "tb", some (some 1)⟩, 1, 2, some 1, none⟩]
          2 "m" false).results).get ⟨k, hk⟩).rank = ((k + 1 : ℕ) : ℤ)) ∧
    (∀ r ∈ (SearchResponse.mk "q" [⟨⟨"a", none, "ta", some (some 2)⟩, 2, 1,
          some 2, none⟩, ⟨⟨"b", none, "tb", some (some 1)⟩, 1, 2, some 1, none⟩]
          2 "m" false).results, 0 ≤ r.score) ∧
    (∀ (d : Document) (s : ℚ) (rk : ℤ) (eso rro : Option ℚ),
        s < 0 ∨ rk < 1 → mkSearchResult d s rk eso rro = none) :=
  dense_ranks_nonneg_scores "q" "idx" ⟨10, 5, 5, "m", false, []⟩ false
    (.ok ⟨1, false, 2, some 2,
      [⟨"a", none, "ta", some (some 2)⟩, ⟨"b", none, "tb", some (some 1)⟩]⟩)
    (.ok ⟨[], "m"⟩)
    (SearchResponse.mk "q" [⟨⟨"a", none, "ta", some (some 2)⟩, 2, 1,
        some 2, none⟩, ⟨⟨"b", none, "tb", some (some 1)⟩, 1, 2, some 1, none⟩]
        2 "m" false) 1 0
    (by with_unfolding_all decide)

/-! ## C6: truncation law -/

/-- C6: every successful run returns exactly the first `top_k_final`
entries of the combined (pre-truncation) list, without re-sorting, so the
returned length is `min top_k_final (length after combination)`. -/
theorem truncation_law
    (query index : String) (config : RerankerConfig) (er : Bool)
    (es : Except String ElasticsearchResponse)
    (scorer : Except String RerankResponse)
    (rs : List SearchResult) (esr : ElasticsearchResponse) (flag : Bool)
    (a b : ℕ)
    (h : searchCore query index config er es scorer =
      ⟨.ok (rs, esr, flag), a, b⟩) :
    (search query index config er es scorer).response =
      .ok ⟨query, rs.take config.top_k_final, esr.total_hits,
        config.model, flag⟩ ∧
    (rs.take config.top_k_final).length = min config.top_k_final rs.length := by
  constructor
  · unfold search
    rw [h]
  · simp

/-- Witness for C6: a run that combined 2 candidates with `top_k_final = 1`
returns `min 1 2 = 1` result, the first of the combined list. -/
theorem truncation_law_witness :
    (search "q" "idx" ⟨10, 5, 1, "m", false, []⟩ true
        (.ok ⟨1, false, 2, some 2,
          [⟨"a", none, "ta", some (some 2)⟩, ⟨"b", none, "tb", some (some 1)⟩]⟩)
        (.ok ⟨[⟨0, 5, "ta"⟩, ⟨1, 4, "tb"⟩], "m"⟩)).response =
      .ok ⟨"q", [⟨⟨"a", none, "ta", some (some 2)⟩, 5, 1, some 2, some 5⟩,
        ⟨⟨"b", none, "tb", some (some 1)⟩, 4, 2, some 1, some 4⟩].take 1,
        2, "m", true⟩ ∧
    ([⟨⟨"a", none, "ta", some (some 2)⟩, 5, 1, some 2, some 5⟩,
        ⟨⟨"b", none, "tb", some (some 1)⟩, 4, 2, some 1, some 4⟩].take 1
        : List SearchResult).length =
      min 1 ([⟨⟨"a", none, "ta", some (some 2)⟩, 5, 1, some 2, some 5⟩,
        ⟨⟨"b", none, "tb", some (some 1)⟩, 4, 2, some 1, some 4⟩]
        : List SearchResult).length :=
  truncation_law "q" "idx" ⟨10, 5, 1, "m", false, []⟩ true
    (.ok ⟨1, false, 2, some 2,
      [⟨"a", none, "ta", some (some 2)⟩, ⟨"b", none, "tb", some (some 1)⟩]⟩)
    (.ok ⟨[⟨0, 5, "ta"⟩, ⟨1, 4, "tb"⟩], "m"⟩)
    [⟨⟨"a", none, "ta", some (some 2)⟩, 5, 1, some 2, some 5⟩,
      ⟨⟨"b", none, "tb", some (some 1)⟩, 4, 2, some 1, some 4⟩]
    ⟨1, false, 2, some 2,
      [⟨"a", none, "ta", some (some 2)⟩, ⟨"b", none, "tb", some (some 1)⟩]⟩
    true 1 1 (by with_unfolding_all decide)

/-! ## C5: combineScores = false uses raw relevance scores -/

theorem sortByScoreDesc_sorted (l : List (Document × ℚ)) :
    List.Sorted (fun a b : Document × ℚ => b.2 ≤ a.2) (sortByScoreDesc l) := by
  haveI : IsTotal (Document × ℚ) (fun a b => b.2 ≤ a.2) :=
    ⟨fun a b => le_total b.2 a.2⟩
  haveI : IsTrans (Document × ℚ) (fun a b => b.2 ≤ a.2) :=
    ⟨fun a b c h1 h2 => le_trans h2 h1⟩
  exact List.sorted_insertionSort _ l

theorem sortByScoreDesc_perm (l : List (Document × ℚ)) :
    List.Perm (sortByScoreDesc l) l :=
  List.perm_insertionSort _ l

/-- C5: when reranking ran and `combine_scores` is false, each final score
is the raw relevance score unmodified (documents and attached rerank scores
in step order), the order ranks are assigned in is descending by relevance
score (a permutation of the recovered pairs), and Scenario A evaluates to
the order `doc3, doc1, doc2` with scores exactly `0.95, 0.85, 0.75`. -/
theorem rerank_only_raw_scores :
    (∀ (original : List Document) (reranked : List (Document × ℚ))
        (cfg : RerankerConfig) (rs : List SearchResult),
      cfg.combine_scores = false →
      combine_results original reranked cfg = some rs →
      rs.map SearchResult.score = reranked.map Prod.snd ∧
      rs.map SearchResult.document = reranked.map Prod.fst) ∧
    (∀ (docs : List Document) (results : List RerankResult),
      List.Sorted (fun a b : Document × ℚ => b.2 ≤ a.2)
        (rerankedDocs docs results) ∧
      List.Perm (rerankedDocs docs results) (rerankPairs docs results)) ∧
    (search "q" "idx" ⟨10, 5, 3, "m", false,
        [("elasticsearch", 3/10), ("rerank", 7/10)]⟩ true
      (.ok ⟨5, false, 3, some (8/10),
        [⟨"doc1", none, "t1", some (some (8/10))⟩,
         ⟨"doc2", none, "t2", some (some (6/10))⟩,
         ⟨"doc3", none, "t3", some (some (7/10))⟩]⟩)
      (.ok ⟨[⟨2, 95/100, "t3"⟩, ⟨0, 85/100, "t1"⟩, ⟨1, 75/100, "t2"⟩],
        "m"⟩)).response =
      .ok ⟨"q",
        [⟨⟨"doc3", none, "t3", some (some (7/10))⟩, 95/100, 1,
            some (7/10), some (95/100)⟩,
         ⟨⟨"doc1", none, "t1", some (some (8/10))⟩, 85/100, 2,
            some (8/10), some (85/100)⟩,
         ⟨⟨"doc2", none, "t2", some (some (6/10))⟩, 75/100, 3,
            some (6/10), some (75/100)⟩],
        3, "m", true⟩ := by
  refine ⟨?_, fun docs results =>
    ⟨sortByScoreDesc_sorted _, sortByScoreDesc_perm _⟩,
    by with_unfolding_all decide⟩
  intro original reranked cfg rs hcs h
  unfold combine_results at h
  obtain ⟨hlen, hget⟩ := combineLoop_some cfg _ _ _ _ h
  constructor
  · refine List.ext_get (by simp [hlen]) ?_
    intro n h1 h2
    have hn : n < rs.length := by simpa using h1
    have hn' : n < reranked.length := by simpa using h2
    simp only [List.get_map]
    rw [(hget n hn hn').1]
    simp [combinedScore, hcs]
  · refine List.ext_get (by simp [hlen]) ?_
    intro n h1 h2
    have hn : n < rs.length := by simpa using h1
    have hn' : n < reranked.length := by simpa using h2
    simp only [List.get_map]
    rw [(hget n hn hn').1]

/-- Witness for C5: a concrete combine step with `combine_scores = false`
keeps the raw relevance scores `5, 4`. -/
theorem rerank_only_raw_scores_witness :
    ([⟨⟨"a", none, "ta", some (some 2)⟩, 5, 1, some 2, some 5⟩,
        ⟨⟨"b", none, "tb", some (some 1)⟩, 4, 2, some 1, some 4⟩]
        : List SearchResult).map SearchResult.score =
      ([(⟨"a", none, "ta", some (some 2)⟩, 5), (⟨"b", none, "tb", some (some 1)⟩, 4)]
        : List (Document × ℚ)).map Prod.snd ∧
    ([⟨⟨"a", none, "ta", some (some 2)⟩, 5, 1, some 2, some 5⟩,
        ⟨⟨"b", none, "tb", some (some 1)⟩, 4, 2, some 1, some 4⟩]
        : List SearchResult).map SearchResult.document =
      ([(⟨"a", none, "ta", some (some 2)⟩, 5), (⟨"b", none, "tb", some (some 1)⟩, 4)]
        : List (Document × ℚ)).map Prod.fst :=
  rerank_only_raw_scores.1
    [⟨"a", none, "ta", some (some 2)⟩, ⟨"b", none, "tb", some (some 1)⟩]
    [(⟨"a", none, "ta", some (some 2)⟩, 5), (⟨"b", none, "tb", some (some 1)⟩, 4)]
    ⟨10, 5, 5, "m", false, []⟩
    [⟨⟨"a", none, "ta", some (some 2)⟩, 5, 1, some 2, some 5⟩,
      ⟨⟨"b", none, "tb", some (some 1)⟩, 4, 2, some 1, some 4⟩]
    rfl (by with_unfolding_all decide)

/-- Witness for C8: a response with one in-range index (0) and one
out-of-range index (7) against a single submitted document. -/
theorem scorer_index_bound_check_witness :
    ∃ d, ([⟨"d0", none, "t", some (some 1)⟩] : List Document).get? 0 = some d ∧
      (d, (5 : ℚ)) ∈ rerankPairs [⟨"d0", none, "t", some (some 1)⟩]
        [⟨0, 5, "t"⟩, ⟨7, 4, "x"⟩] := by
  have h := (scorer_index_bound_check [⟨"d0", none, "t", some (some 1)⟩]
    [⟨0, 5, "t"⟩, ⟨7, 4, "x"⟩]).2.1 ⟨0, 5, "t"⟩ (by simp) (by decide)
  exact h

/-! ## C4: the degenerate (no-rerank) path -/

/-- The conversion loop succeeds whenever every effective native score is
non-negative (the only validator that can fire, since ranks start at 1). -/
theorem convertLoop_total :
    ∀ (l : List Document) (n : ℕ), 1 ≤ n →
      (∀ d ∈ l, 0 ≤ d.esScoreVal) →
      ∃ rs, convertLoop n l = some rs := by
  intro l
  induction l with
  | nil => exact fun n _ _ => ⟨[], rfl⟩
  | cons doc rest ih =>
    intro n hn hpos
    obtain ⟨rs', hrs'⟩ := ih (n + 1) (by omega)
      (fun d hd => hpos d (List.mem_cons_of_mem _ hd))
    refine ⟨⟨doc, doc.esScoreRaw.getD 0, (n : ℤ), doc.esScoreRaw, none⟩ :: rs', ?_⟩
    have h0 : 0 ≤ doc.esScoreRaw.getD 0 := hpos doc (List.mem_cons_self _ _)
    simp only [convertLoop]
    rw [show mkSearchResult doc (doc.esScoreRaw.getD 0) (n : ℤ)
        doc.esScoreRaw none =
        some ⟨doc, doc.esScoreRaw.getD 0, (n : ℤ), doc.esScoreRaw, none⟩ from by
      unfold mkSearchResult
      rw [if_neg (not_lt.mpr h0), if_neg (by omega)]]
    rw [hrs']

/-- C4 (amended): when the caller disabled reranking or fewer than 2
candidates were retrieved, the relevance scorer is never invoked and the
run emits one result per retrieved candidate among the first `top_k_final`
(the conversion step already truncates to `top_k_final`, so the final
truncation is a no-op), in retrieval order, score = native score (`0.0`
when absent), rank = 1-based position, rerank score absent; in particular a
1-document retrieval never calls the scorer. -/
theorem degenerate_path_amended
    (query index : String) (config : RerankerConfig) (er : Bool)
    (esr : ElasticsearchResponse) (scorer : Except String RerankResponse)
    (hq : ¬ pyStrip query = "") (hi : ¬ pyStrip index = "")
    (hdeg : er = false ∨ esr.documents.length ≤ 1)
    (hpos : ∀ d ∈ esr.documents, 0 ≤ d.esScoreVal) :
    (search query index config er (.ok esr) scorer).scorerCalls = 0 ∧
    ∃ rs, search query index config er (.ok esr) scorer =
        ⟨.ok ⟨query, rs, esr.total_hits, config.model, false⟩, 1, 0⟩ ∧
      rs.length = min config.top_k_final esr.documents.length ∧
      ∀ (k : ℕ) (hk : k < rs.length) (hk' : k < esr.documents.length),
        rs.get ⟨k, hk⟩ =
          { document := esr.documents.get ⟨k, hk'⟩
            score := (esr.documents.get ⟨k, hk'⟩).esScoreVal
            rank := ((1 + k : ℕ) : ℤ)
            elasticsearch_score := (esr.documents.get ⟨k, hk'⟩).esScoreRaw
            rerank_score := none } := by
  have hen : (er && decide (esr.documents.length > 1)) = false := by
    rcases hdeg with h | h
    · simp [h]
    · simp [show ¬ esr.documents.length > 1 by omega]
  obtain ⟨rs, hrs⟩ := convertLoop_total (esr.documents.take config.top_k_final)
    1 le_rfl (fun d hd => hpos d (List.take_subset _ _ hd))
  have hcv : convert_to_search_results esr.documents config.top_k_final =
      some rs := hrs
  obtain ⟨hlen, hget⟩ := convertLoop_some _ _ _ hrs
  have hlen' : rs.length = min config.top_k_final esr.documents.length := by
    rw [hlen, List.length_take]
  have hcore : searchCore query index config er (.ok esr) scorer =
      ⟨.ok (rs, esr, false), 1, 0⟩ := by
    simp [searchCore, hq, hi, hen, hcv]
  have hsearch : search query index config er (.ok esr) scorer =
      ⟨.ok ⟨query, rs.take config.top_k_final, esr.total_hits,
        config.model, false⟩, 1, 0⟩ := by
    unfold search
    rw [hcore]
  have htake : rs.take config.top_k_final = rs :=
    List.take_all_of_le (by omega)
  rw [htake] at hsearch
  refine ⟨by rw [hsearch], rs, hsearch, hlen', ?_⟩
  intro k hk hk'
  have hk2 : k < (esr.documents.take config.top_k_final).length :=
    hlen ▸ hk
  rw [(hget k hk hk2).1]
  have hdoc : (esr.documents.take config.top_k_final).get ⟨k, hk2⟩ =
      esr.documents.get ⟨k, hk'⟩ := by
    simp [List.getElem_take]
  rw [hdoc]

/-- Witness for C4 (amended): a 1-document retrieval with reranking
requested; the scorer is not called and the single result has no rerank
score. -/
theorem degenerate_path_amended_witness :
    (search "q" "idx" ⟨10, 5, 5, "m", true, []⟩ true
        (.ok ⟨1, false, 1, some 2, [⟨"a", none, "ta", some (some 2)⟩]⟩)
        (.error "never called")).scorerCalls = 0 ∧
    ∃ rs, search "q" "idx" ⟨10, 5, 5, "m", true, []⟩ true
        (.ok ⟨1, false, 1, some 2, [⟨"a", none, "ta", some (some 2)⟩]⟩)
        (.error "never called") =
        ⟨.ok ⟨"q", rs, 1, "m", false⟩, 1, 0⟩ ∧
      rs.length = min 5 1 ∧
      ∀ (k : ℕ) (hk : k < rs.length)
        (hk' : k < ([⟨"a", none, "ta", some (some 2)⟩] : List Document).length),
        rs.get ⟨k, hk⟩ =
          { document := ([⟨"a", none, "ta", some (some 2)⟩] :
              List Document).get ⟨k, hk'⟩
            score := (([⟨"a", none, "ta", some (some 2)⟩] :
              List Document).get ⟨k, hk'⟩).esScoreVal
            rank := ((1 + k : ℕ) : ℤ)
            elasticsearch_score := (([⟨"a", none, "ta", some (some 2)⟩] :
              List Document).get ⟨k, hk'⟩).esScoreRaw
            rerank_score := none } :=
  degenerate_path_amended "q" "idx" ⟨10, 5, 5, "m", true, []⟩ true
    ⟨1, false, 1, some 2, [⟨"a", none, "ta", some (some 2)⟩]⟩
    (.error "never called") (by decide) (by decide)
    (Or.inr (by decide)) (by decide)

/-- C4 counterexample: reranking disabled, 2 documents retrieved,
`top_k_final = 1`.  The list the pipeline builds BEFORE the final
truncation (the `searchCore` result list, i.e. `final_results` before
`final_results[:top_k_final]`) already has a single entry, not one per
retrieved candidate, because `_convert_to_search_results` truncates to
`top_k_final` itself. -/
theorem degenerate_path_counterexample :
    searchCore "q" "idx" ⟨10, 5, 1, "m", false, []⟩ false
        (.ok ⟨1, false, 2, some 2,
          [⟨"a", none, "ta", some (some 2)⟩, ⟨"b", none, "tb", some (some 1)⟩]⟩)
        (.ok ⟨[], "m"⟩) =
      ⟨.ok ([⟨⟨"a", none, "ta", some (some 2)⟩, 2, 1, some 2, none⟩],
        ⟨1, false, 2, some 2,
          [⟨"a", none, "ta", some (some 2)⟩, ⟨"b", none, "tb", some (some 1)⟩]⟩,
        false), 1, 0⟩ ∧
    ([⟨⟨"a", none, "ta", some (some 2)⟩, 2, 1, some 2, none⟩]
        : List SearchResult).length = 1 ∧
    ([⟨"a", none, "ta", some (some 2)⟩, ⟨"b", none, "tb", some (some 1)⟩]
        : List Document).length = 2 ∧
    ¬ (1 = 2) := by
  with_unfolding_all decide

/-! ## C1: min-max normalization and its comparison set -/

theorem foldl_min_le_init (xs : List ℚ) (x : ℚ) : xs.foldl min x ≤ x := by
  induction xs generalizing x with
  | nil => exact le_rfl
  | cons y ys ih => exact le_trans (ih (min x y)) (min_le_left x y)

theorem le_foldl_max_init (xs : List ℚ) (x : ℚ) : x ≤ xs.foldl max x := by
  induction xs generalizing x with
  | nil => exact le_rfl
  | cons y ys ih => exact le_trans (le_max_left x y) (ih (max x y))

theorem foldl_min_le_mem {y : ℚ} (xs : List ℚ) (x : ℚ) (h : y ∈ xs) :
    xs.foldl min x ≤ y := by
  induction xs generalizing x with
  | nil => cases h
  | cons z zs ih =>
    rcases List.mem_cons.mp h with rfl | hz
    · exact le_trans (foldl_min_le_init zs (min x y)) (min_le_right x y)
    · exact ih (min x z) hz

theorem le_foldl_max_mem {y : ℚ} (xs : List ℚ) (x : ℚ) (h : y ∈ xs) :
    y ≤ xs.foldl max x := by
  induction xs generalizing x with
  | nil => cases h
  | cons z zs ih =>
    rcases List.mem_cons.mp h with rfl | hz
    · exact le_trans (le_max_right x y) (le_foldl_max_init zs (max x y))
    · exact ih (max x z) hz

/-- A score that belongs to the comparison set is normalized into `[0,1]`. -/
theorem normalize_score_mem_bounds {s : ℚ} {l : List ℚ} (hs : s ∈ l) :
    0 ≤ normalize_score s l ∧ normalize_score s l ≤ 1 := by
  cases l with
  | nil => cases hs
  | cons x xs =>
    have hmn : xs.foldl min x ≤ s := by
      rcases List.mem_cons.mp hs with rfl | h
      · exact foldl_min_le_init xs s
      · exact foldl_min_le_mem xs x h
    have hmx : s ≤ xs.foldl max x := by
      rcases List.mem_cons.mp hs with rfl | h
      · exact le_foldl_max_init xs s
      · exact le_foldl_max_mem xs x h
    unfold normalize_score
    by_cases h : xs.foldl max x = xs.foldl min x
    · simp [h]
    · have hlt : xs.foldl min x < xs.foldl max x :=
        lt_of_le_of_ne (le_trans hmn hmx) (Ne.symm h)
      simp only [if_neg h]
      constructor
      · exact div_nonneg (by linarith) (by linarith)
      · rw [div_le_one (by linarith)]
        linarith

theorem dictInsert_keys_subset (d : List (String × ℚ)) (k k' : String)
    (v : ℚ) (h : k' ∈ d.map Prod.fst) :
    k' ∈ (dictInsert d k v).map Prod.fst := by
  unfold dictInsert
  split_ifs with hp
  · obtain ⟨p, hp1, hp2⟩ := List.mem_map.mp h
    refine List.mem_map.mpr ⟨if p.1 = k then (k, v) else p, List.mem_map_of_mem _ hp1, ?_⟩
    split_ifs with hk
    · rw [← hp2, hk]
    · exact hp2
  · simp only [List.map_append, List.mem_append]
    exact Or.inl h

theorem dictInsert_key_mem (d : List (String × ℚ)) (k : String) (v : ℚ) :
    k ∈ (dictInsert d k v).map Prod.fst := by
  unfold dictInsert
  split_ifs with hp
  · obtain ⟨p, hp1, hp2⟩ := List.any_eq_true.mp hp
    have hk : p.1 = k := of_decide_eq_true hp2
    simp only [List.map_map, List.mem_map]
    exact ⟨p, hp1, by simp [hk]⟩
  · simp

theorem esScoresDict_key_mem_aux (docs : List Document) :
    ∀ (init : List (String × ℚ)) (d : Document),
      (d.id ∈ init.map Prod.fst ∨ d ∈ docs) →
      d.id ∈ (docs.foldl
        (fun acc doc => dictInsert acc doc.id doc.esScoreVal) init).map
        Prod.fst := by
  induction docs with
  | nil =>
    intro init d h
    exact h.resolve_right (by simp)
  | cons doc rest ih =>
    intro init d h
    simp only [List.foldl_cons]
    apply ih
    rcases h with h | h
    · exact Or.inl (dictInsert_keys_subset _ _ _ _ h)
    · rcases List.mem_cons.mp h with rfl | h2
      · exact Or.inl (dictInsert_key_mem _ _ _)
      · exact Or.inr h2

theorem esScoresDict_key_mem (docs : List Document) (d : Document)
    (h : d ∈ docs) : d.id ∈ (esScoresDict docs).map Prod.fst :=
  esScoresDict_key_mem_aux docs [] d (Or.inr h)

theorem dictGet_mem_values (d : List (String × ℚ)) (k : String) (dflt : ℚ)
    (h : k ∈ d.map Prod.fst) : dictGet d k dflt ∈ dictValues d := by
  induction d with
  | nil => cases h
  | cons p rest ih =>
    by_cases hk : p.1 = k
    · unfold dictGet
      rw [List.find?_cons_of_pos _ (by simp [hk])]
      exact List.mem_map_of_mem _ (List.mem_cons_self _ _)
    · have h2 : k ∈ rest.map Prod.fst := by
        rcases List.mem_map.mp h with ⟨q, hq1, hq2⟩
        rcases List.mem_cons.mp hq1 with rfl | hq3
        · exact absurd hq2 hk
        · exact List.mem_map.mpr ⟨q, hq3, hq2⟩
      unfold dictGet
      rw [List.find?_cons_of_neg _ (by simp [hk])]
      have := ih h2
      unfold dictGet at this
      exact List.mem_map.mp this |> fun ⟨q, hq1, hq2⟩ =>
        List.mem_map.mpr ⟨q, List.mem_cons_of_mem _ hq1, hq2⟩

/-- The normalized native score `_combine_results` actually computes for a
candidate document: its looked-up native score, min-max-normalized against
the values of `es_scores` — the dict built over ALL retrieved documents. -/
def normalizedNativeScore (original_docs : List Document) (d : Document) : ℚ :=
  normalize_score (dictGet (esScoresDict original_docs) d.id 0)
    (dictValues (esScoresDict original_docs))

/-- The claim's stated normalization rule: min-max of the candidate's
native score against the native scores of exactly the candidates that were
sent to the scorer (spec wording, for comparison with the code). -/
def normalizedNativeScoreSpecSent (docs_sent : List Document)
    (d : Document) : ℚ :=
  normalize_score d.esScoreVal (docs_sent.map Document.esScoreVal)

/-- C1 (amended): with `combine_scores = true` every combined result's
score is `w_es * normalizedNativeScore + w_rerank * relevanceScore`, where
the comparison set of the min-max normalization is the set of native scores
of ALL retrieved documents (the full retrieved set), not only of the
candidates sent to the scorer; `_normalize_score` is `0.0` on an empty
comparison set and `1.0` when `max == min`; and the normalized value lies
in `[0,1]` for every retrieved document (hence for every candidate that was
sent to the scorer). -/
theorem normalization_full_retrieved_set
    (original : List Document) (reranked : List (Document × ℚ))
    (cfg : RerankerConfig) (rs : List SearchResult)
    (hcs : cfg.combine_scores = true)
    (h : combine_results original reranked cfg = some rs) :
    (∀ (k : ℕ) (hk : k < rs.length) (hk' : k < reranked.length),
      (rs.get ⟨k, hk⟩).score =
        dictGet cfg.score_weights "elasticsearch" (3/10) *
          normalizedNativeScore original (reranked.get ⟨k, hk'⟩).1 +
        dictGet cfg.score_weights "rerank" (7/10) *
          (reranked.get ⟨k, hk'⟩).2) ∧
    (∀ d ∈ original, 0 ≤ normalizedNativeScore original d ∧
        normalizedNativeScore original d ≤ 1) ∧
    (∀ s : ℚ, normalize_score s [] = 0) ∧
    (∀ (s x : ℚ) (xs : List ℚ), xs.foldl max x = xs.foldl min x →
        normalize_score s (x :: xs) = 1) := by
  unfold combine_results at h
  obtain ⟨hlen, hget⟩ := combineLoop_some cfg _ _ _ _ h
  refine ⟨?_, ?_, fun s => rfl, ?_⟩
  · intro k hk hk'
    rw [(hget k hk hk').1]
    simp [combinedScore, hcs, normalizedNativeScore]
  · intro d hd
    have hkey : d.id ∈ (esScoresDict original).map Prod.fst :=
      esScoresDict_key_mem original d hd
    have hval : dictGet (esScoresDict original) d.id 0 ∈
        dictValues (esScoresDict original) :=
      dictGet_mem_values _ _ _ hkey
    exact normalize_score_mem_bounds hval
  · intro s x xs heq
    simp [normalize_score, heq]

/-- Witness for C1 (amended): a concrete combine step with two retrieved
documents; the first document's normalized native score is inside `[0,1]`. -/
theorem normalization_full_retrieved_set_witness :
    0 ≤ normalizedNativeScore
        [⟨"x", none, "tx", some (some 2)⟩, ⟨"y", none, "ty", some (some 0)⟩]
        ⟨"x", none, "tx", some (some 2)⟩ ∧
      normalizedNativeScore
        [⟨"x", none, "tx", some (some 2)⟩, ⟨"y", none, "ty", some (some 0)⟩]
        ⟨"x", none, "tx", some (some 2)⟩ ≤ 1 :=
  (normalization_full_retrieved_set
    [⟨"x", none, "tx", some (some 2)⟩, ⟨"y", none, "ty", some (some 0)⟩]
    [(⟨"x", none, "tx", some (some 2)⟩, 3)]
    ⟨10, 5, 5, "m", true, []⟩
    [⟨⟨"x", none, "tx", some (some 2)⟩, 3/10 * 1 + 7/10 * 3, 1,
      some 2, some 3⟩]
    rfl (by with_unfolding_all decide)).2.1
    ⟨"x", none, "tx", some (some 2)⟩ (by simp)

/-- C1 counterexample: 3 documents retrieved with native scores `8, 6, 4`,
only the first 2 sent to the scorer (`top_k_rerank = 2`), weights
`elasticsearch = 1, rerank = 0` so the final score IS the normalized native
score.  The code normalizes against the full retrieved set:
`(6-4)/(8-4) = 1/2` for the second result — while normalizing against the
set of candidates sent to the scorer, as the claim states, would give
`(6-6)/(8-6) = 0`. -/
theorem normalization_full_retrieved_set_counterexample :
    ((search "q" "idx"
        ⟨10, 2, 2, "m", true, [("elasticsearch", 1), ("rerank", 0)]⟩ true
        (.ok ⟨1, false, 3, some 8,
          [⟨"d1", none, "t1", some (some 8)⟩,
           ⟨"d2", none, "t2", some (some 6)⟩,
           ⟨"d3", none, "t3", some (some 4)⟩]⟩)
        (.ok ⟨[⟨0, 9, "t1"⟩, ⟨1, 8, "t2"⟩], "m"⟩)).response.toOption.map
      (fun r => r.results.map SearchResult.score)) = some [1, 1/2] ∧
    normalizedNativeScoreSpecSent
      [⟨"d1", none, "t1", some (some 8)⟩, ⟨"d2", none, "t2", some (some 6)⟩]
      ⟨"d2", none, "t2", some (some 6)⟩ = 0 ∧
    ¬ ((1 : ℚ)/2 = 0) := by
  with_unfolding_all decide

/-! ## C2: failure taxonomy of a pipeline run -/

/-- C2 (amended): validation errors propagate as their own typed kind;
scorer failures are `RerankingError` tagged `stage="reranking"` (with the
document count); any other unexpected failure is wrapped into a
`RerankingError` tagged `stage="search"` — the SAME exception type as
scorer failures, distinguishable from them only by the `stage` detail, and
distinguishable by type from validation errors (the only two kinds that
escape). -/
theorem failure_taxonomy
    (query index : String) (config : RerankerConfig) (er : Bool)
    (msg : String) (esr : ElasticsearchResponse)
    (sc : Except String RerankResponse)
    (hq : ¬ pyStrip query = "") (hi : ¬ pyStrip index = "") :
    ((search query index config er (.error msg) sc).response =
      .error (.rerankingError ("Search failed: " ++ msg) query none
        "search")) ∧
    ((er && decide (esr.documents.length > 1)) = true →
      (esr.documents.take config.top_k_rerank).isEmpty = false →
      (search query index config er (.ok esr) (.error msg)).response =
        .error (.rerankingError ("Reranking failed: " ++ msg) query
          (some (esr.documents.take config.top_k_rerank).length)
          "reranking")) ∧
    (∀ e : PipelineError, e.kind = .validation ∨ e.kind = .reranking) ∧
    (("search" : String) ≠ "reranking") := by
  refine ⟨?_, ?_, ?_, by decide⟩
  · simp [search, searchCore, wrapUnexpected, hq, hi]
  · intro hen hemp
    simp [search, searchCore, hq, hi, hen, hemp]
  · intro e
    cases e
    · exact Or.inl rfl
    · exact Or.inr rfl

/-- Witness for C2 (amended): a retrieval failure is wrapped with
stage="search"; a scorer failure propagates with stage="reranking". -/
theorem failure_taxonomy_witness :
    ((search "q" "idx" ⟨10, 5, 5, "m", false, []⟩ false (.error "boom")
        (.ok ⟨[], "m"⟩)).response =
      .error (.rerankingError ("Search failed: " ++ "boom") "q" none
        "search")) ∧
    ((search "q" "idx" ⟨10, 5, 5, "m", true, []⟩ true
        (.ok ⟨1, false, 2, some 2,
          [⟨"a", none, "ta", some (some 2)⟩, ⟨"b", none, "tb", some (some 1)⟩]⟩)
        (.error "scorer down")).response =
      .error (.rerankingError ("Reranking failed: " ++ "scorer down") "q"
        (some ([(⟨"a", none, "ta", some (some 2)⟩ : Document),
          ⟨"b", none, "tb", some (some 1)⟩].take 5).length) "reranking")) :=
  ⟨(failure_taxonomy "q" "idx" ⟨10, 5, 5, "m", false, []⟩ false "boom"
      ⟨1, false, 0, none, []⟩ (.ok ⟨[], "m"⟩)
      (by decide) (by decide)).1,
    (failure_taxonomy "q" "idx" ⟨10, 5, 5, "m", true, []⟩ true "scorer down"
      ⟨1, false, 2, some 2,
        [⟨"a", none, "ta", some (some 2)⟩, ⟨"b", none, "tb", some (some 1)⟩]⟩
      (.ok ⟨[], "m"⟩) (by decide) (by decide)).2.1
      (by decide) (by decide)⟩

/-- C2 counterexample: an unexpected retrieval failure is wrapped into a
`RerankingError` (tagged stage="search") — the same exception type as the
reranking-error kind, so the wrapped generic failure is NOT distinguishable
by type from a reranking error, only by its `stage` detail. -/
theorem failure_taxonomy_counterexample :
    (search "q" "idx" ⟨10, 5, 5, "m", true, []⟩ true
        (.error "connection refused") (.ok ⟨[], "m"⟩)).response =
      .error (.rerankingError "Search failed: connection refused" "q" none
        "search") ∧
    PipelineError.kind
        (.rerankingError "Search failed: connection refused" "q" none
          "search") =
      .reranking := by
  with_unfolding_all decide

/-! ## C10: batch execution — order and concurrency bound -/

/-- Invariant of the batch machine: never more than `mc` tasks hold a
permit; recorded results are the task's own outcome; every task is waiting,
running or done. -/
def BatchInv (f : ℕ → α) (n mc : ℕ) (s : BatchState α) : Prop :=
  s.running.length ≤ mc ∧
  (∀ p ∈ s.done, p.2 = f p.1) ∧
  (∀ i, i < n → i ∈ s.waiting ∨ i ∈ s.running ∨ i ∈ s.done.map Prod.fst)

theorem batchInv_init (f : ℕ → α) (n mc : ℕ) :
    BatchInv f n mc (batchInit α n mc) := by
  refine ⟨by simp [batchInit], by simp [batchInit], ?_⟩
  intro i hi
  have : i ∈ List.range n := List.mem_range.mpr hi
  rw [← List.take_append_drop mc (List.range n)] at this
  rcases List.mem_append.mp this with h | h
  · exact Or.inr (Or.inl h)
  · exact Or.inl h

theorem batchInv_step {f : ℕ → α} {n mc : ℕ} {s s' : BatchState α}
    (hstep : BatchStep f s s') (hinv : BatchInv f n mc s) :
    BatchInv f n mc s' := by
  obtain ⟨w, r, d, j, hj⟩ := hstep
  obtain ⟨hlen, hval, hcov⟩ := hinv
  refine ⟨?_, ?_, ?_⟩
  · simp only [List.length_append, List.length_take,
      List.length_erase_of_mem hj]
    have hr : 1 ≤ r.length := List.length_pos.mpr (List.ne_nil_of_mem hj)
    simp only at hlen
    omega
  · intro p hp
    rcases List.mem_append.mp hp with h | h
    · exact hval p h
    · rcases List.mem_singleton.mp h with rfl
      rfl
  · intro i hi
    rcases hcov i hi with h | h | h
    · cases w with
      | nil => cases h
      | cons w0 ws =>
        rcases List.mem_cons.mp h with rfl | h2
        · exact Or.inr (Or.inl (List.mem_append.mpr (Or.inr (by simp))))
        · exact Or.inl (by simpa using h2)
    · by_cases hij : i = j
      · subst hij
        refine Or.inr (Or.inr ?_)
        simp
      · exact Or.inr (Or.inl (List.mem_append.mpr
          (Or.inl ((List.mem_erase_of_ne hij).mpr h))))
    · refine Or.inr (Or.inr ?_)
      simp only [List.map_append, List.mem_append]
      exact Or.inl h

/-- A scheduling step requires at least one in-flight task. -/
theorem batchStep_running_ne_nil {f : ℕ → α} {s s' : BatchState α}
    (hstep : BatchStep f s s') : s.running ≠ [] := by
  obtain ⟨w, r, d, j, hj⟩ := hstep
  exact List.ne_nil_of_mem hj

theorem batchInv_reach {f : ℕ → α} {n mc : ℕ} {s s' : BatchState α}
    (hreach : BatchReach f s s') (hinv : BatchInv f n mc s) :
    BatchInv f n mc s' := by
  induction hreach with
  | refl => exact hinv
  | tail _ hstep ih => exact batchInv_step hstep ih

theorem lookup_of_mem_keys {α : Type} {f : ℕ → α} :
    ∀ (done : List (ℕ × α)), (∀ p ∈ done, p.2 = f p.1) →
      ∀ i, i ∈ done.map Prod.fst → List.lookup i done = some (f i) := by
  intro done
  induction done with
  | nil => intro _ i hi; cases hi
  | cons p rest ih =>
    intro hv i hi
    by_cases hip : i = p.1
    · have : p.2 = f p.1 := hv p (List.mem_cons_self _ _)
      simp [List.lookup, hip, this]
    · have h2 : i ∈ rest.map Prod.fst := by
        rcases List.mem_map.mp hi with ⟨q, hq1, hq2⟩
        rcases List.mem_cons.mp hq1 with rfl | hq3
        · exact absurd hq2.symm hip
        · exact List.mem_map.mpr ⟨q, hq3, hq2⟩
      have hne : (i == p.1) = false := by
        simp [hip]
      simp only [List.lookup, hne]
      exact ih (fun q hq => hv q (List.mem_cons_of_mem _ hq)) i h2

theorem batchGather_of_inv {α : Type} {f : ℕ → α} (n : ℕ)
    (done : List (ℕ × α)) (hv : ∀ p ∈ done, p.2 = f p.1)
    (hcov : ∀ i, i < n → i ∈ done.map Prod.fst) :
    batchGather n done = (List.range n).map f := by
  unfold batchGather
  have haux : ∀ l : List ℕ, (∀ i ∈ l, i < n) →
      l.filterMap (fun i => List.lookup i done) = l.map f := by
    intro l hl
    induction l with
    | nil => rfl
    | cons a rest ih =>
      have ha : List.lookup a done = some (f a) :=
        lookup_of_mem_keys done hv a (hcov a (hl a (List.mem_cons_self _ _)))
      rw [List.filterMap_cons, ha, List.map_cons,
        ih (fun i hi => hl i (List.mem_cons_of_mem _ hi))]
  exact haux (List.range n) (fun i hi => List.mem_range.mp hi)

/-- C10: the batch operation with an empty request list stays in its
initial state — no task ever runs, nothing is recorded, the output is
empty; for a non-empty batch, every reachable state has at most
`maxConcurrent` tasks in flight, and every completed execution hands the
results back in input order — `batchGather` returns slot `i`'s response at
position `i` — regardless of the (nondeterministic) completion order. -/
theorem batch_ordered_bounded (α : Type) (f : ℕ → α) (n mc : ℕ) :
    (∀ s : BatchState α, BatchReach f (batchInit α 0 mc) s →
      s = batchInit α 0 mc ∧ s.done = [] ∧ batchGather 0 s.done = []) ∧
    (∀ s : BatchState α, BatchReach f (batchInit α n mc) s →
      s.running.length ≤ mc) ∧
    (∀ s : BatchState α, BatchReach f (batchInit α n mc) s → BatchFinal s →
      batchGather n s.done = (List.range n).map f) := by
  refine ⟨?_, ?_, ?_⟩
  · intro s hreach
    have hs : s = batchInit α 0 mc := by
      induction hreach with
      | refl => rfl
      | tail hr hstep ih =>
        exfalso
        rw [ih] at hstep
        exact batchStep_running_ne_nil hstep (by simp [batchInit])
    subst hs
    exact ⟨rfl, rfl, rfl⟩
  · intro s hreach
    exact (batchInv_reach hreach (batchInv_init f n mc)).1
  · intro s hreach hfin
    obtain ⟨hlen, hval, hcov⟩ := batchInv_reach hreach (batchInv_init f n mc)
    refine batchGather_of_inv n s.done hval ?_
    intro i hi
    rcases hcov i hi with h | h | h
    · rw [hfin.1] at h
      cases h
    · rw [hfin.2] at h
      cases h
    · exact h

/-- Witness for C10: two requests run with `maxConcurrent = 2`; task 1
completes BEFORE task 0, yet `batchGather` hands the responses back in
input order `[outcome 0, outcome 1]`. -/
theorem batch_ordered_bounded_witness :
    batchGather 2
      [(1, searchSingle ⟨10, 5, 5, "m", false, []⟩
          (.ok ⟨1, false, 1, some 2, [⟨"a", none, "ta", some (some 2)⟩]⟩)
          (.ok ⟨[], "m"⟩)
          (if 1 = 0 then ⟨"q1", "idx", none⟩ else ⟨"q2", "idx", none⟩)),
       (0, searchSingle ⟨10, 5, 5, "m", false, []⟩
          (.ok ⟨1, false, 1, some 2, [⟨"a", none, "ta", some (some 2)⟩]⟩)
          (.ok ⟨[], "m"⟩)
          (if 0 = 0 then ⟨"q1", "idx", none⟩ else ⟨"q2", "idx", none⟩))] =
      (List.range 2).map (fun i => searchSingle ⟨10, 5, 5, "m", false, []⟩
        (.ok ⟨1, false, 1, some 2, [⟨"a", none, "ta", some (some 2)⟩]⟩)
        (.ok ⟨[], "m"⟩)
        (if i = 0 then ⟨"q1", "idx", none⟩ else ⟨"q2", "idx", none⟩)) := by
  refine (batch_ordered_bounded (SearchOutcome SearchResponse)
    (fun i => searchSingle ⟨10, 5, 5, "m", false, []⟩
      (.ok ⟨1, false, 1, some 2, [⟨"a", none, "ta", some (some 2)⟩]⟩)
      (.ok ⟨[], "m"⟩)
      (if i = 0 then ⟨"q1", "idx", none⟩ else ⟨"q2", "idx", none⟩))
    2 2).2.2
    ⟨[], [],
      [(1, searchSingle ⟨10, 5, 5, "m", false, []⟩
          (.ok ⟨1, false, 1, some 2, [⟨"a", none, "ta", some (some 2)⟩]⟩)
          (.ok ⟨[], "m"⟩)
          (if 1 = 0 then ⟨"q1", "idx", none⟩ else ⟨"q2", "idx", none⟩)),
       (0, searchSingle ⟨10, 5, 5, "m", false, []⟩
          (.ok ⟨1, false, 1, some 2, [⟨"a", none, "ta", some (some 2)⟩]⟩)
          (.ok ⟨[], "m"⟩)
          (if 0 = 0 then ⟨"q1", "idx", none⟩ else ⟨"q2", "idx", none⟩))]⟩
    ?_ ⟨rfl, rfl⟩
  refine Relation.ReflTransGen.head
    (BatchStep.complete [] [0, 1] [] 1 (by simp)) ?_
  refine Relation.ReflTransGen.head
    (BatchStep.complete [] [0] [(1, _)] 0 (by simp)) ?_
  exact Relation.ReflTransGen.refl

end ElasticZeroEntropy
